import Mathlib

/-!
Verification of the two core components of the Hedra study-app front-end:
the retrying request executor (`retry` in the AI-service module) and the
chunked file reader / base64 encoder (`readFileChunked`, `fileToBase64`).
The TypeScript source is embedded shallowly: JavaScript strings are lists of
characters, thrown values are an inductive `JsValue`, and the asynchronous
control flow of both components is turned into explicit recursion whose
observable events (attempts, sleeps, progress reports, resolution or
rejection) are collected in result structures.
-/

namespace Hedra

/-- JavaScript strings, modelled as lists of characters. -/
abbrev JsStr := List Char

/-- `String.prototype.toLowerCase()` (on the ASCII fragment used by the markers). -/
def jsToLower (s : JsStr) : JsStr := s.map Char.toLower

/-- The values a JavaScript expression can `throw`, as far as the executor's
classifier can distinguish them: `Error` instances (only the `message` is
read), strings, numbers, booleans, `null`, `undefined`, BigInts, plain
objects and arrays. -/
inductive JsValue where
  | errorObj (message : String)
  | str (s : String)
  | num (n : Int)
  | boolean (b : Bool)
  | null
  | undef
  | bigint (n : Int)
  | obj (fields : List (String × JsValue))
  | arr (elems : List JsValue)

/-- Opening brace character (written via its code point). -/
def lbrace : Char := Char.ofNat 123

/-- Closing brace character (written via its code point). -/
def rbrace : Char := Char.ofNat 125

/-- Lower-case hexadecimal digit, as used by `JSON.stringify` escapes. -/
def hexDigit (n : Nat) : Char := if n < 10 then Char.ofNat (48 + n) else Char.ofNat (87 + n)

/-- Escaping of a single character inside a JSON string literal, as
performed by `JSON.stringify`. -/
def jsonEscapeChar (c : Char) : JsStr :=
  if c = '"' then ['\\', '"']
  else if c = '\\' then ['\\', '\\']
  else if c = '\n' then ['\\', 'n']
  else if c = '\r' then ['\\', 'r']
  else if c = '\t' then ['\\', 't']
  else if c.toNat = 8 then ['\\', 'b']
  else if c.toNat = 12 then ['\\', 'f']
  else if c.toNat < 32 then ['\\', 'u', '0', '0', hexDigit (c.toNat / 16), hexDigit (c.toNat % 16)]
  else [c]

/-- A JSON string literal: quoted and escaped. -/
def jsonQuote (s : String) : JsStr := '"' :: (s.toList.map jsonEscapeChar).flatten ++ ['"']

mutual

/-- `JSON.stringify` (no indentation), restricted to the value shapes of
`JsValue`.  `none` models a thrown `TypeError`: `JSON.stringify` throws on
BigInt values (and produces no string for a top-level `undefined`).
`Error` instances have no enumerable own properties, so they serialize as
an empty object.  Object fields whose value is `undefined` are omitted;
`undefined` array elements serialize as `null`. -/
def jsonStringify : JsValue → Option JsStr
  | .errorObj _ => some [lbrace, rbrace]
  | .str s => some (jsonQuote s)
  | .num n => some (toString n).toList
  | .boolean b => some (if b then "true".toList else "false".toList)
  | .null => some "null".toList
  | .undef => none
  | .bigint _ => none
  | .obj fields =>
      (jsonFields fields).map (fun parts => lbrace :: (List.intersperse [','] parts).flatten ++ [rbrace])
  | .arr elems =>
      (jsonElems elems).map (fun parts => '[' :: (List.intersperse [','] parts).flatten ++ [']'])

/-- Serialization of the fields of a JSON object; `undefined`-valued fields
are omitted. -/
def jsonFields : List (String × JsValue) → Option (List JsStr)
  | [] => some []
  | (k, v) :: rest =>
    match v with
    | .undef => jsonFields rest
    | v =>
      match jsonStringify v, jsonFields rest with
      | some sv, some srest => some ((jsonQuote k ++ ':' :: sv) :: srest)
      | _, _ => none

/-- Serialization of JSON array elements; `undefined` elements serialize as
`null`. -/
def jsonElems : List JsValue → Option (List JsStr)
  | [] => some []
  | v :: rest =>
    match (match v with
           | .undef => some "null".toList
           | v => jsonStringify v), jsonElems rest with
    | some sv, some srest => some (sv :: srest)
    | _, _ => none

end

/-- The classifier's stringification step, from the source:
`if (err instanceof Error) msg = err.message.toLowerCase(); else if (typeof
err === 'object') msg = JSON.stringify(err).toLowerCase(); else msg =
String(err).toLowerCase();`.  `none` models the case in which
`JSON.stringify` itself throws, crashing the classifier.  Note that
`typeof null === 'object'` and `JSON.stringify(null)` is the string
`"null"`. -/
def stringifyLower : JsValue → Option JsStr
  | .errorObj m => some (jsToLower m.toList)
  | .obj fs => (jsonStringify (.obj fs)).map jsToLower
  | .arr es => (jsonStringify (.arr es)).map jsToLower
  | .null => some (jsToLower "null".toList)
  | .str s => some (jsToLower s.toList)
  | .num n => some (jsToLower (toString n).toList)
  | .boolean b => some (jsToLower (if b then "true".toList else "false".toList))
  | .undef => some (jsToLower "undefined".toList)
  | .bigint n => some (jsToLower (toString n).toList)

/-- Does `pat` occur at the head of `s`? -/
def isSubAt : JsStr → JsStr → Bool
  | _, [] => true
  | [], _ :: _ => false
  | c :: s, p :: pat => c = p && isSubAt s pat

/-- `String.prototype.includes`: does `pat` occur anywhere in `s`? -/
def hasSub : JsStr → JsStr → Bool
  | [], pat => isSubAt [] pat
  | c :: s, pat => isSubAt (c :: s) pat || hasSub s pat

def m413 : JsStr := "413".toList
def mPayloadTooLarge : JsStr := "payload too large".toList
def m400 : JsStr := "400".toList
def mInvalidArgument : JsStr := "invalid argument".toList
def m429 : JsStr := "429".toList
def mResourceExhausted : JsStr := "resource_exhausted".toList
def mQuota : JsStr := "quota".toList
def m500 : JsStr := "500".toList
def m503 : JsStr := "503".toList
def mXhrError : JsStr := "xhr error".toList
def mFetchFailed : JsStr := "fetch failed".toList
def mTimeout : JsStr := "timeout".toList
def mNetworkError : JsStr := "networkerror".toList
def mErrorCode6 : JsStr := "error code: 6".toList
def mRpcFailed : JsStr := "rpc failed".toList

/-- Marker test of the first branch: `msg.includes("413") ||
msg.includes("payload too large")`. -/
def isTooLargeMsg (msg : JsStr) : Bool := hasSub msg m413 || hasSub msg mPayloadTooLarge

/-- Marker test of the second branch: `msg.includes("400") ||
msg.includes("invalid argument")`. -/
def isInvalidMsg (msg : JsStr) : Bool := hasSub msg m400 || hasSub msg mInvalidArgument

/-- Marker test of the quota branch: `msg.includes("429") ||
msg.includes("resource_exhausted") || msg.includes("quota")`. -/
def isQuotaMsg (msg : JsStr) : Bool :=
  hasSub msg m429 || hasSub msg mResourceExhausted || hasSub msg mQuota

/-- Marker test of the transient branch: `500`, `503`, "xhr error",
"fetch failed", "timeout", "networkerror", "error code: 6", "rpc failed". -/
def isTransientMsg (msg : JsStr) : Bool :=
  hasSub msg m500 || hasSub msg m503 || hasSub msg mXhrError || hasSub msg mFetchFailed ||
  hasSub msg mTimeout || hasSub msg mNetworkError || hasSub msg mErrorCode6 ||
  hasSub msg mRpcFailed

/-- The spec's `ClassifiedError` tagged variant. -/
inductive ClassifiedError where
  | payloadTooLarge
  | invalidArgument
  | quotaExceeded
  | transient
  | unknown
deriving DecidableEq

/-- The classification performed by `retry`'s catch block, reading the
marker tests in the order the source checks them. -/
def classifyMsg (msg : JsStr) : ClassifiedError :=
  if isTooLargeMsg msg then .payloadTooLarge
  else if isInvalidMsg msg then .invalidArgument
  else if isQuotaMsg msg then .quotaExceeded
  else if isTransientMsg msg then .transient
  else .unknown

/-- How a run of `retry` terminates: the operation's value, one of the three
wrapper errors (`FileTooLargeError`, `UnsupportedFormatError`,
`QuotaExceededError`), the original error re-thrown, or a crash of the
classifier's own stringification step. -/
inductive RetryOutcome (T : Type) where
  | ok (t : T)
  | fileTooLarge
  | unsupportedFormat
  | quotaExhausted
  | thrown (e : JsValue)
  | stringifyCrash

/-- Observable trace of a run of `retry`: how many times the wrapped
operation was invoked, the sleep durations passed to `setTimeout` between
attempts (in order), and the outcome. -/
structure RetryTrace (T : Type) where
  attempts : Nat
  sleeps : List Nat
  outcome : RetryOutcome T

/-- `async function retry<T>(fn, retries = 3, delay = 2000)` from the
AI-service module.  `fn` is indexed by the attempt number (0-based) so that
operations whose behaviour varies between attempts can be expressed; the
source's `fn` takes no argument.  The catch block stringifies the error,
then checks 413/payload-too-large, 400/invalid-argument,
429/resource_exhausted/quota (retrying while `retries > 0`, else the
terminal quota error), then the transient markers guarded by `retries > 0`
(retrying with doubled delay), and otherwise re-throws the original
error. -/
def retryRun (fn : Nat → Except JsValue T) : Nat → Nat → Nat → RetryTrace T
  | retries, delay, attempt =>
  match fn attempt with
  | .ok t => ⟨1, [], .ok t⟩
  | .error e =>
    match stringifyLower e with
    | none => ⟨1, [], .stringifyCrash⟩
    | some msg =>
      if isTooLargeMsg msg then ⟨1, [], .fileTooLarge⟩
      else if isInvalidMsg msg then ⟨1, [], .unsupportedFormat⟩
      else if isQuotaMsg msg then
        match retries with
        | r + 1 =>
          let t := retryRun fn r (delay * 2) (attempt + 1)
          ⟨t.attempts + 1, delay :: t.sleeps, t.outcome⟩
        | 0 => ⟨1, [], .quotaExhausted⟩
      else if isTransientMsg msg then
        match retries with
        | r + 1 =>
          let t := retryRun fn r (delay * 2) (attempt + 1)
          ⟨t.attempts + 1, delay :: t.sleeps, t.outcome⟩
        | 0 => ⟨1, [], .thrown e⟩
      else ⟨1, [], .thrown e⟩

/-- The backoff sequence: starting from `delay`, doubled before each
further retry. -/
def backoffSeq (delay : Nat) (n : Nat) : List Nat :=
  (List.range n).map (fun i => delay * 2 ^ i)

theorem backoffSeq_zero (delay : Nat) : backoffSeq delay 0 = [] := rfl

theorem backoffSeq_succ (delay n : Nat) :
    backoffSeq delay (n + 1) = delay :: backoffSeq (delay * 2) n := by
  simp only [backoffSeq, List.range_succ_eq_map, List.map_cons, List.map_map]
  congr 1
  · simp
  · apply List.map_congr_left
    intro i _
    simp only [Function.comp_apply, pow_succ]
    ring

/-- An always-failing operation whose error is classified `QuotaExceeded`
on every attempt makes `retries + 1` attempts, sleeps the doubling backoff
sequence, and ends in the terminal quota error. -/
theorem retryRun_quota_all {T : Type} (fn : Nat → Except JsValue T)
    (h : ∀ k, ∃ e msg, fn k = Except.error e ∧ stringifyLower e = some msg ∧
      isTooLargeMsg msg = false ∧ isInvalidMsg msg = false ∧ isQuotaMsg msg = true) :
    ∀ retries delay attempt,
      retryRun fn retries delay attempt =
        ⟨retries + 1, backoffSeq delay retries, RetryOutcome.quotaExhausted⟩ := by
  intro retries
  induction retries with
  | zero =>
    intro delay attempt
    obtain ⟨e, msg, hfn, hs, h1, h2, h3⟩ := h attempt
    simp [retryRun, hfn, hs, h1, h2, h3, backoffSeq_zero]
  | succ r ih =>
    intro delay attempt
    obtain ⟨e, msg, hfn, hs, h1, h2, h3⟩ := h attempt
    simp [retryRun, hfn, hs, h1, h2, h3, ih, backoffSeq_succ]

/-- An always-failing operation whose (fixed) error is classified
`Transient` makes `retries + 1` attempts, sleeps the doubling backoff
sequence, and finally re-throws the original error unchanged. -/
theorem retryRun_transient_const {T : Type} (e : JsValue) (msg : JsStr)
    (hs : stringifyLower e = some msg)
    (h1 : isTooLargeMsg msg = false) (h2 : isInvalidMsg msg = false)
    (h3 : isQuotaMsg msg = false) (h4 : isTransientMsg msg = true) :
    ∀ retries delay attempt,
      retryRun (T := T) (fun _ => Except.error e) retries delay attempt =
        ⟨retries + 1, backoffSeq delay retries, RetryOutcome.thrown e⟩ := by
  intro retries
  induction retries with
  | zero =>
    intro delay attempt
    simp [retryRun, hs, h1, h2, h3, h4, backoffSeq_zero]
  | succ r ih =>
    intro delay attempt
    simp [retryRun, hs, h1, h2, h3, h4, ih, backoffSeq_succ]

mutual

/-- Does the value contain a BigInt in a position that `JSON.stringify`
serializes (i.e. not hidden under an omitted `undefined` field — note an
`undefined` value itself never contains one)? -/
def hasNestedBigint : JsValue → Bool
  | .bigint _ => true
  | .obj fs => hasNestedBigintFields fs
  | .arr es => hasNestedBigintElems es
  | .errorObj _ => false
  | .str _ => false
  | .num _ => false
  | .boolean _ => false
  | .null => false
  | .undef => false

def hasNestedBigintFields : List (String × JsValue) → Bool
  | [] => false
  | (_, v) :: rest => hasNestedBigint v || hasNestedBigintFields rest

def hasNestedBigintElems : List JsValue → Bool
  | [] => false
  | v :: rest => hasNestedBigint v || hasNestedBigintElems rest

end

mutual

/-- `JSON.stringify` produces a string (does not throw) on every value
that is not `undefined` and contains no BigInt. -/
theorem jsonStringify_isSome : ∀ v : JsValue, hasNestedBigint v = false →
    v ≠ JsValue.undef → (jsonStringify v).isSome = true
  | .errorObj _, _, _ => rfl
  | .str _, _, _ => rfl
  | .num _, _, _ => rfl
  | .boolean _, _, _ => rfl
  | .null, _, _ => rfl
  | .undef, _, hne => absurd rfl hne
  | .bigint _, hb, _ => by simp [hasNestedBigint] at hb
  | .obj fs, hb, _ => by
    have h := jsonFields_isSome fs (by simpa [hasNestedBigint] using hb)
    obtain ⟨l, hl⟩ := Option.isSome_iff_exists.mp h
    simp [jsonStringify, hl]
  | .arr es, hb, _ => by
    have h := jsonElems_isSome es (by simpa [hasNestedBigint] using hb)
    obtain ⟨l, hl⟩ := Option.isSome_iff_exists.mp h
    simp [jsonStringify, hl]

theorem jsonFields_isSome : ∀ fs : List (String × JsValue),
    hasNestedBigintFields fs = false → (jsonFields fs).isSome = true
  | [], _ => rfl
  | (k, v) :: rest, hb => by
    have hb' : hasNestedBigint v = false ∧ hasNestedBigintFields rest = false := by
      simpa [hasNestedBigintFields] using hb
    have hrest := jsonFields_isSome rest hb'.2
    obtain ⟨lr, hlr⟩ := Option.isSome_iff_exists.mp hrest
    match v, hb'.1 with
    | .undef, _ => simpa [jsonFields] using hrest
    | .errorObj m, hv => simp [jsonFields, hlr, jsonStringify]
    | .str s, hv => simp [jsonFields, hlr, jsonStringify]
    | .num n, hv => simp [jsonFields, hlr, jsonStringify]
    | .boolean b, hv => simp [jsonFields, hlr, jsonStringify]
    | .null, hv => simp [jsonFields, hlr, jsonStringify]
    | .bigint n, hv => simp [hasNestedBigint] at hv
    | .obj fs2, hv =>
      have h := jsonStringify_isSome (.obj fs2) hv (by intro hc; cases hc)
      have ⟨sv, hsv⟩ := Option.isSome_iff_exists.mp h
      simp [jsonFields, hlr, hsv]
    | .arr es2, hv =>
      have h := jsonStringify_isSome (.arr es2) hv (by intro hc; cases hc)
      have ⟨sv, hsv⟩ := Option.isSome_iff_exists.mp h
      simp [jsonFields, hlr, hsv]

theorem jsonElems_isSome : ∀ es : List JsValue,
    hasNestedBigintElems es = false → (jsonElems es).isSome = true
  | [], _ => rfl
  | v :: rest, hb => by
    have hb' : hasNestedBigint v = false ∧ hasNestedBigintElems rest = false := by
      simpa [hasNestedBigintElems] using hb
    have hrest := jsonElems_isSome rest hb'.2
    obtain ⟨lr, hlr⟩ := Option.isSome_iff_exists.mp hrest
    match v, hb'.1 with
    | .undef, _ => simp [jsonElems, hlr]
    | .errorObj m, hv => simp [jsonElems, hlr, jsonStringify]
    | .str s, hv => simp [jsonElems, hlr, jsonStringify]
    | .num n, hv => simp [jsonElems, hlr, jsonStringify]
    | .boolean b, hv => simp [jsonElems, hlr, jsonStringify]
    | .null, hv => simp [jsonElems, hlr, jsonStringify]
    | .bigint n, hv => simp [hasNestedBigint] at hv
    | .obj fs2, hv =>
      have h := jsonStringify_isSome (.obj fs2) hv (by intro hc; cases hc)
      have ⟨sv, hsv⟩ := Option.isSome_iff_exists.mp h
      simp [jsonElems, hlr, hsv]
    | .arr es2, hv =>
      have h := jsonStringify_isSome (.arr es2) hv (by intro hc; cases hc)
      have ⟨sv, hsv⟩ := Option.isSome_iff_exists.mp h
      simp [jsonElems, hlr, hsv]

end

/-- C1 (counterexample): a payload containing "429" is NOT always
classified `QuotaExceeded`: when it also contains "413", the earlier
413-branch wins, the classification is `PayloadTooLarge`, and the executor
makes a single attempt with no backoff, ending in the terminal
file-too-large error rather than taking the quota branch. -/
theorem claim1_counterexample :
    isQuotaMsg (jsToLower ("HTTP 413 while retrying after 429".toList)) = true ∧
    classifyMsg (jsToLower ("HTTP 413 while retrying after 429".toList)) ≠
      ClassifiedError.quotaExceeded ∧
    retryRun (T := Unit)
        (fun _ => Except.error (JsValue.str "HTTP 413 while retrying after 429")) 3 2000 0 =
      ⟨1, [], RetryOutcome.fileTooLarge⟩ :=
  ⟨by decide, by decide, rfl⟩

/-- C1 (amended): every error payload whose lower-cased stringification
contains "429", "resource_exhausted" or "quota" AND contains none of the
higher-precedence markers ("413"/"payload too large",
"400"/"invalid argument") is classified `QuotaExceeded`, and the executor
takes the quota branch: with `maxRetries = N` it retries with the doubling
backoff and, once exhausted, raises the terminal quota error. -/
theorem claim1_amended {T : Type} (e : JsValue) (msg : JsStr) (N delay attempt : Nat)
    (hs : stringifyLower e = some msg)
    (hq : isQuotaMsg msg = true)
    (h413 : isTooLargeMsg msg = false) (h400 : isInvalidMsg msg = false) :
    classifyMsg msg = ClassifiedError.quotaExceeded ∧
    retryRun (T := T) (fun _ => Except.error e) N delay attempt =
      ⟨N + 1, backoffSeq delay N, RetryOutcome.quotaExhausted⟩ := by
  refine ⟨by simp [classifyMsg, h413, h400, hq], ?_⟩
  exact retryRun_quota_all (fun _ => Except.error e)
    (fun k => ⟨e, msg, rfl, hs, h413, h400, hq⟩) N delay attempt

theorem claim1_witness :
    classifyMsg (jsToLower ("RESOURCE_EXHAUSTED".toList)) = ClassifiedError.quotaExceeded ∧
    retryRun (T := Unit) (fun _ => Except.error (JsValue.str "RESOURCE_EXHAUSTED")) 2 2000 0 =
      ⟨2 + 1, backoffSeq 2000 2, RetryOutcome.quotaExhausted⟩ :=
  claim1_amended (JsValue.str "RESOURCE_EXHAUSTED") (jsToLower ("RESOURCE_EXHAUSTED".toList))
    2 2000 0 rfl (by decide) (by decide) (by decide)

/-- C2: for every `maxRetries = N` and an operation that always fails with
the same error whose message is classified `Transient` (it contains one of
the transient markers and none of the higher-precedence markers, which the
spec checks first), the executor invokes the operation exactly `N + 1`
times and finally throws the original error object, unchanged. -/
theorem claim2_transient_attempts {T : Type} (e : JsValue) (msg : JsStr)
    (N delay attempt : Nat)
    (hs : stringifyLower e = some msg)
    (ht : isTransientMsg msg = true)
    (h413 : isTooLargeMsg msg = false) (h400 : isInvalidMsg msg = false)
    (h429 : isQuotaMsg msg = false) :
    (retryRun (T := T) (fun _ => Except.error e) N delay attempt).attempts = N + 1 ∧
    (retryRun (T := T) (fun _ => Except.error e) N delay attempt).outcome =
      RetryOutcome.thrown e := by
  rw [retryRun_transient_const e msg hs h413 h400 h429 ht N delay attempt]
  exact ⟨rfl, rfl⟩

theorem claim2_witness :
    (retryRun (T := Unit)
      (fun _ => Except.error (JsValue.errorObj "XHR Error: fetch failed")) 3 100 0).attempts =
        3 + 1 ∧
    (retryRun (T := Unit)
      (fun _ => Except.error (JsValue.errorObj "XHR Error: fetch failed")) 3 100 0).outcome =
        RetryOutcome.thrown (JsValue.errorObj "XHR Error: fetch failed") :=
  claim2_transient_attempts (JsValue.errorObj "XHR Error: fetch failed")
    (jsToLower ("XHR Error: fetch failed".toList)) 3 100 0
    rfl (by decide) (by decide) (by decide) (by decide)

/-- C5: every error payload containing "413" or "payload too large" (after
lower-casing) is classified `PayloadTooLarge`: whatever `maxRetries` is,
the executor makes exactly one attempt, sleeps never, and raises the
terminal file-too-large error. -/
theorem claim5_payload_too_large {T : Type} (fn : Nat → Except JsValue T)
    (e : JsValue) (msg : JsStr) (N delay attempt : Nat)
    (hfn : fn attempt = Except.error e)
    (hs : stringifyLower e = some msg)
    (h413 : isTooLargeMsg msg = true) :
    classifyMsg msg = ClassifiedError.payloadTooLarge ∧
    retryRun fn N delay attempt = ⟨1, [], RetryOutcome.fileTooLarge⟩ := by
  constructor
  · simp [classifyMsg, h413]
  · rcases N with _ | n <;> simp [retryRun, hfn, hs, h413]

theorem claim5_witness :
    classifyMsg (jsToLower ("Payload Too Large (as well as 429 quota)".toList)) =
      ClassifiedError.payloadTooLarge ∧
    retryRun (T := Unit)
        (fun _ => Except.error (JsValue.str "Payload Too Large (as well as 429 quota)"))
        1000 2000 0 =
      ⟨1, [], RetryOutcome.fileTooLarge⟩ :=
  claim5_payload_too_large
    (fun _ => Except.error (JsValue.str "Payload Too Large (as well as 429 quota)"))
    (JsValue.str "Payload Too Large (as well as 429 quota)")
    (jsToLower ("Payload Too Large (as well as 429 quota)".toList)) 1000 2000 0
    rfl rfl (by decide)

/-- C6: under a policy `initialDelayMs = delay`, `backoffFactor = 2`,
`maxRetries = N`, an operation that always fails with a retryable
(`Transient`-classified) error sleeps exactly
`[delay, delay*2, delay*4, ...]` between successive attempts — the delay
before retry `n` is `delay * 2 ^ (n-1)` — and in particular the policy
`(2000, 2, 3)` sleeps `[2000, 4000, 8000]`. -/
theorem claim6_backoff_sequence {T : Type} (e : JsValue) (msg : JsStr) (N delay : Nat)
    (hs : stringifyLower e = some msg)
    (ht : isTransientMsg msg = true)
    (h413 : isTooLargeMsg msg = false) (h400 : isInvalidMsg msg = false)
    (h429 : isQuotaMsg msg = false) :
    (retryRun (T := T) (fun _ => Except.error e) N delay 0).sleeps =
      (List.range N).map (fun i => delay * 2 ^ i) ∧
    backoffSeq 2000 3 = [2000, 4000, 8000] := by
  rw [retryRun_transient_const e msg hs h413 h400 h429 ht N delay 0]
  exact ⟨rfl, by simp [backoffSeq, List.range_succ]⟩

theorem claim6_witness :
    (retryRun (T := Unit)
      (fun _ => Except.error (JsValue.errorObj "503 Service Unavailable")) 3 2000 0).sleeps =
        (List.range 3).map (fun i => 2000 * 2 ^ i) ∧
    backoffSeq 2000 3 = [2000, 4000, 8000] :=
  claim6_backoff_sequence (JsValue.errorObj "503 Service Unavailable")
    (jsToLower ("503 Service Unavailable".toList)) 3 2000
    rfl (by decide) (by decide) (by decide) (by decide)

/-- C7: if every attempt fails with an error classified `QuotaExceeded`,
the run makes exactly `N + 1` attempts and terminates with the distinct
terminal quota error (`QuotaExceededError`) — not with the underlying
error (`thrown`) and not with any other failure — exactly once, since a
run has exactly one outcome. -/
theorem claim7_quota_terminal {T : Type} (fn : Nat → Except JsValue T)
    (N delay attempt : Nat)
    (h : ∀ k, ∃ e msg, fn k = Except.error e ∧ stringifyLower e = some msg ∧
      isTooLargeMsg msg = false ∧ isInvalidMsg msg = false ∧ isQuotaMsg msg = true) :
    (retryRun fn N delay attempt).attempts = N + 1 ∧
    (retryRun fn N delay attempt).outcome = RetryOutcome.quotaExhausted ∧
    ∀ e, (retryRun fn N delay attempt).outcome ≠ RetryOutcome.thrown e := by
  rw [retryRun_quota_all fn h N delay attempt]
  exact ⟨rfl, rfl, fun e hc => by cases hc⟩

theorem claim7_witness :
    (retryRun (T := Unit)
      (fun _ => Except.error (JsValue.errorObj "quota exceeded for project"))
      3 2000 0).attempts = 3 + 1 ∧
    (retryRun (T := Unit)
      (fun _ => Except.error (JsValue.errorObj "quota exceeded for project"))
      3 2000 0).outcome = RetryOutcome.quotaExhausted ∧
    ∀ e, (retryRun (T := Unit)
      (fun _ => Except.error (JsValue.errorObj "quota exceeded for project"))
      3 2000 0).outcome ≠ RetryOutcome.thrown e :=
  claim7_quota_terminal _ 3 2000 0
    (fun _ => ⟨JsValue.errorObj "quota exceeded for project",
      jsToLower ("quota exceeded for project".toList),
      rfl, rfl, by decide, by decide, by decide⟩)

/-- C8 (counterexample): the stringification step is not total — a plain
object containing a BigInt value makes `JSON.stringify` throw, so the
classifier itself crashes on that payload. -/
theorem claim8_counterexample :
    stringifyLower (JsValue.obj [("value", JsValue.bigint 1)]) = none ∧
    (retryRun (T := Unit)
      (fun _ => Except.error (JsValue.obj [("value", JsValue.bigint 1)])) 3 2000 0).outcome =
      RetryOutcome.stringifyCrash :=
  ⟨rfl, rfl⟩

/-- C8 (amended): for every thrown value containing no BigInt — in
particular every value that is not an Error, not a string, and not a plain
object — the stringification step (Error message, else `JSON.stringify`
for objects, else generic string coercion, then lower-casing) completes
without throwing. -/
theorem claim8_amended (v : JsValue) (h : hasNestedBigint v = false) :
    (stringifyLower v).isSome = true := by
  match v, h with
  | .errorObj m, _ => rfl
  | .str s, _ => rfl
  | .num n, _ => rfl
  | .boolean b, _ => rfl
  | .null, _ => rfl
  | .undef, _ => rfl
  | .bigint n, h => simp [hasNestedBigint] at h
  | .obj fs, h =>
    have hj := jsonStringify_isSome (.obj fs) h (by intro hc; cases hc)
    obtain ⟨l, hl⟩ := Option.isSome_iff_exists.mp hj
    simp [stringifyLower, hl]
  | .arr es, h =>
    have hj := jsonStringify_isSome (.arr es) h (by intro hc; cases hc)
    obtain ⟨l, hl⟩ := Option.isSome_iff_exists.mp hj
    simp [stringifyLower, hl]

theorem claim8_witness :
    hasNestedBigint (JsValue.arr [JsValue.undef, JsValue.num 6,
      JsValue.obj [("nested", JsValue.null)]]) = false ∧
    (stringifyLower (JsValue.arr [JsValue.undef, JsValue.num 6,
      JsValue.obj [("nested", JsValue.null)]])).isSome = true :=
  ⟨rfl, claim8_amended _ rfl⟩

/-! ## ChunkedFileEncoder (`readFileChunked`, `fileToBase64`, `processFile`) -/

/-- `const chunkSize = 1024 * 1024` — 1 MiB chunks. -/
def chunkSize : Nat := 1024 * 1024

/-- `const chunks = Math.ceil(file.size / chunkSize)`. -/
def chunkCount (size : Nat) : Nat := (size + chunkSize - 1) / chunkSize

/-- `Math.round(num / den)` for `den > 0`, computed exactly on rationals
(halves round up, as in JavaScript). -/
def jsRound (num den : Nat) : Nat := (2 * num + den) / (2 * den)

/-- The progress value passed to `onProgress` after a chunk read:
`Math.round((currentChunk / chunks) * 40)`.  `none` models the non-finite
value (`Infinity`) produced when `chunks = 0` (division by zero). -/
def reportVal (cur n : Nat) : Option Nat :=
  if n = 0 then none else some (jsRound (cur * 40) n)

/-- The base64 alphabet, by sextet value. -/
def charOfSextet (s : Nat) : Char :=
  if s < 26 then Char.ofNat (65 + s)
  else if s < 52 then Char.ofNat (97 + (s - 26))
  else if s < 62 then Char.ofNat (48 + (s - 52))
  else if s = 62 then '+'
  else '/'

/-- Inverse of the base64 alphabet (used by the spec-side decoder). -/
def sextetOfChar (c : Char) : Option Nat :=
  if 65 ≤ c.toNat ∧ c.toNat ≤ 90 then some (c.toNat - 65)
  else if 97 ≤ c.toNat ∧ c.toNat ≤ 122 then some (26 + (c.toNat - 97))
  else if 48 ≤ c.toNat ∧ c.toNat ≤ 57 then some (52 + (c.toNat - 48))
  else if c = '+' then some 62
  else if c = '/' then some 63
  else none

/-- Standard base64 encoding with `=` padding of a byte sequence — the
encoding performed by `window.btoa` (and by `readAsDataURL` for the
payload part of a data URL). -/
def b64encode : List Nat → List Char
  | [] => []
  | [b0] => [charOfSextet (b0 / 4), charOfSextet (b0 % 4 * 16), '=', '=']
  | [b0, b1] => [charOfSextet (b0 / 4), charOfSextet (b0 % 4 * 16 + b1 / 16),
      charOfSextet (b1 % 16 * 4), '=']
  | b0 :: b1 :: b2 :: rest =>
    charOfSextet (b0 / 4) :: charOfSextet (b0 % 4 * 16 + b1 / 16) ::
    charOfSextet (b1 % 16 * 4 + b2 / 64) :: charOfSextet (b2 % 64) :: b64encode rest

/-- Modelled from the spec: standard base64 decoding (the inverse direction
of RFC 4648 / `window.atob`), used to state the round-trip property; the
repository itself never decodes. -/
def b64decode : List Char → Option (List Nat)
  | [] => some []
  | c0 :: c1 :: c2 :: c3 :: rest =>
    match sextetOfChar c0, sextetOfChar c1 with
    | some s0, some s1 =>
      if c2 = '=' then
        if c3 = '=' && rest.isEmpty then some [s0 * 4 + s1 / 16] else none
      else
        match sextetOfChar c2 with
        | some s2 =>
          if c3 = '=' then
            if rest.isEmpty then some [s0 * 4 + s1 / 16, s1 % 16 * 16 + s2 / 4] else none
          else
            match sextetOfChar c3 with
            | some s3 =>
              (b64decode rest).map (fun tl =>
                (s0 * 4 + s1 / 16) :: (s1 % 16 * 16 + s2 / 4) :: (s2 % 4 * 64 + s3) :: tl)
            | none => none
        | none => none
    | _, _ => none
  | _ => none

/-- The 32 KiB sub-chunking of the string-conversion loop:
`for (let i = 0; i < len; i += 0x8000) ... bytes.subarray(i, i + 0x8000)`. -/
def chunks32k : List Nat → List (List Nat)
  | [] => []
  | b :: rest => ((b :: rest).take 32768) :: chunks32k ((b :: rest).drop 32768)
  termination_by l => l.length
  decreasing_by simp; omega

/-- The `binary` string built from the full buffer: each byte becomes the
character with that code (`String.fromCharCode`), 32 KiB at a time. -/
def binaryOfBuffer (buf : List Nat) : JsStr :=
  ((chunks32k buf).map (fun part => part.map Char.ofNat)).flatten

/-- `window.btoa`: encodes a string whose code points are all < 256;
throws (modelled `none`) otherwise. -/
def btoaJs (s : JsStr) : Option JsStr :=
  if s.all (fun c => c.toNat < 256) then some (b64encode (s.map Char.toNat)) else none

/-- Observable behaviour of one `readFileChunked` invocation: the values
passed to `onProgress` in order, and either the rejection error or the
resolved value (`window.btoa` applied to the binary string). -/
structure ChunkRun (E : Type) where
  reports : List (Option Nat)
  outcome : Except E (Option JsStr)

/-- The chunk-read loop of `readFileChunked`, from `readNextChunk` /
`reader.onload` / `reader.onerror`: read the chunk at index `cur`; on
error, reject with that error (nothing further happens); on success append
the chunk, report `Math.round(((cur+1) / chunks) * 40)`, and either
continue with the next chunk (after a `setTimeout(..., 0)` yield) while
`cur + 1 < chunks`, or concatenate the accumulated chunks, convert to a
binary string in 32 KiB windows, and resolve `btoa` of it.  The loop body
runs at least once because `readNextChunk()` is called unconditionally
before the first `onload`. -/
def runFrom {E : Type} (reads : Nat → Except E (List Nat)) (n : Nat) :
    Nat → List (List Nat) → ChunkRun E
  | cur, acc =>
  match reads cur with
  | .error e => ⟨[], .error e⟩
  | .ok part =>
    if h : cur + 1 < n then
      let r := runFrom reads n (cur + 1) (acc ++ [part])
      ⟨reportVal (cur + 1) n :: r.reports, r.outcome⟩
    else
      ⟨[reportVal (cur + 1) n], .ok (btoaJs (binaryOfBuffer (acc ++ [part]).flatten))⟩
  termination_by cur _ => n - cur
  decreasing_by omega

/-- `file.slice(start, end)` with `start = k * chunkSize` and
`end = Math.min(start + chunkSize, file.size)`. -/
def fileSlice (bytes : List Nat) (k : Nat) : List Nat :=
  (bytes.drop (k * chunkSize)).take (min (k * chunkSize + chunkSize) bytes.length - k * chunkSize)

/-- A full successful `readFileChunked` run over a file with the given
bytes: every chunk read succeeds and returns the corresponding slice. -/
def readFileChunkedRun (bytes : List Nat) : ChunkRun Empty :=
  runFrom (fun k => Except.ok (fileSlice bytes k)) (chunkCount bytes.length) 0 []

/-- `String.prototype.split(',')`. -/
def splitComma : JsStr → List JsStr
  | [] => [[]]
  | c :: rest =>
    if c = ',' then [] :: splitComma rest
    else
      match splitComma rest with
      | h :: t => (c :: h) :: t
      | [] => [[c]]

/-- The string produced by `FileReader.readAsDataURL`:
`data:<mime>;base64,<standard base64 of the bytes>`. -/
def dataUrlOf (mime : JsStr) (bytes : List Nat) : JsStr :=
  "data:".toList ++ mime ++ ";base64,".toList ++ b64encode bytes

/-- `fileToBase64`: read the file as a data URL and resolve
`reader.result.split(',')[1]` (`none` models the out-of-range index). -/
def fileToBase64 (mime : JsStr) (bytes : List Nat) : Option JsStr :=
  (splitComma (dataUrlOf mime bytes))[1]?

/-- The value `readFileChunked` resolves with on the all-reads-succeed
path (`none` if `btoa` were to throw; the error side is `Empty` since
every read succeeds). -/
def chunkedResolved (bytes : List Nat) : Option JsStr :=
  ((readFileChunkedRun bytes).outcome.toOption).join

/-- `const CHUNK_THRESHOLD = 2 * 1024 * 1024`. -/
def CHUNK_THRESHOLD : Nat := 2 * 1024 * 1024

/-- The size-based dispatch in `processFile`: chunked reading for files
larger than 2 MiB, single-shot data-URL reading otherwise. -/
def processFileB64 (mime : JsStr) (bytes : List Nat) : Option JsStr :=
  if bytes.length > CHUNK_THRESHOLD then chunkedResolved bytes else fileToBase64 mime bytes

theorem jsRound_mono (den a b : Nat) (hab : a ≤ b) : jsRound a den ≤ jsRound b den :=
  Nat.div_le_div_right (by omega)

theorem jsRound_full (n : Nat) (hn : 0 < n) : jsRound (n * 40) n = 40 := by
  unfold jsRound
  apply Nat.div_eq_of_lt_le <;> omega

theorem jsRound_step (n a : Nat) (hn : 0 < n) (h40 : n ≤ 40) :
    jsRound a n < jsRound (a + 40) n := by
  unfold jsRound
  have h1 : (2 * a + n) / (2 * n) < (2 * a + n + 2 * n) / (2 * n) := by
    rw [Nat.add_div_right _ (by omega)]
    omega
  exact lt_of_lt_of_le h1 (Nat.div_le_div_right (by omega))

theorem chunkCount_pos (S : Nat) (h : 0 < S) : 0 < chunkCount S := by
  unfold chunkCount chunkSize
  omega

theorem mul_chunkSize_le (S cur : Nat) (h : cur + 1 < chunkCount S) :
    cur * chunkSize + chunkSize ≤ S := by
  unfold chunkCount chunkSize at *
  omega

theorem le_mul_chunkSize (S cur : Nat) (h : chunkCount S ≤ cur + 1) :
    S ≤ cur * chunkSize + chunkSize := by
  unfold chunkCount chunkSize at *
  omega

theorem fileSlice_eq_take (bytes : List Nat) (cur : Nat)
    (h : cur * chunkSize + chunkSize ≤ bytes.length) :
    fileSlice bytes cur = (bytes.drop (cur * chunkSize)).take chunkSize := by
  unfold fileSlice
  congr 1
  omega

theorem fileSlice_last (bytes : List Nat) (cur : Nat)
    (h : bytes.length ≤ cur * chunkSize + chunkSize) :
    fileSlice bytes cur = bytes.drop (cur * chunkSize) := by
  unfold fileSlice
  have hmin : min (cur * chunkSize + chunkSize) bytes.length = bytes.length := by omega
  rw [hmin]
  apply List.take_of_length_le
  simp [List.length_drop]

theorem fileSlice_append (bytes : List Nat) (cur : Nat)
    (h : cur * chunkSize + chunkSize ≤ bytes.length) :
    fileSlice bytes cur ++ bytes.drop ((cur + 1) * chunkSize) = bytes.drop (cur * chunkSize) := by
  rw [fileSlice_eq_take bytes cur h]
  have h2 : (cur + 1) * chunkSize = cur * chunkSize + chunkSize := by ring
  rw [h2, ← List.drop_drop]
  exact List.take_append_drop chunkSize (bytes.drop (cur * chunkSize))

theorem chunks32k_flatten : ∀ l : List Nat, (chunks32k l).flatten = l
  | [] => by simp [chunks32k]
  | b :: rest => by
    rw [chunks32k]
    have ih := chunks32k_flatten ((b :: rest).drop 32768)
    simp only [List.flatten_cons, ih]
    exact List.take_append_drop _ _
  termination_by l => l.length
  decreasing_by simp; omega

theorem binaryOfBuffer_eq (buf : List Nat) : binaryOfBuffer buf = buf.map Char.ofNat := by
  unfold binaryOfBuffer
  rw [← List.map_flatten, chunks32k_flatten]

theorem char_ofNat_toNat (b : Nat) (h : b < 256) : (Char.ofNat b).toNat = b := by
  unfold Char.ofNat
  split
  · rfl
  · omega

theorem btoaJs_map_ofNat (bytes : List Nat) (h : ∀ b ∈ bytes, b < 256) :
    btoaJs (bytes.map Char.ofNat) = some (b64encode bytes) := by
  unfold btoaJs
  have hall : (bytes.map Char.ofNat).all (fun c => c.toNat < 256) = true := by
    simp only [List.all_eq_true, List.mem_map, decide_eq_true_eq]
    rintro c ⟨b, hb, rfl⟩
    rw [char_ofNat_toNat b (h b hb)]
    exact h b hb
  rw [if_pos hall, List.map_map]
  have hmap : bytes.map (Char.toNat ∘ Char.ofNat) = bytes :=
    calc bytes.map (Char.toNat ∘ Char.ofNat)
        = bytes.map id := List.map_congr_left (fun b hb => char_ofNat_toNat b (h b hb))
      _ = bytes := List.map_id bytes
  rw [hmap]

/-- Success-path characterization of the chunk loop: starting at chunk
`cur < chunkCount`, with `acc` already read, the loop reports
`round(((cur+i+1)/chunks)*40)` for each remaining chunk and resolves
`btoa` of the binary string of `acc` followed by the rest of the file. -/
theorem runFrom_slices (bytes : List Nat) : ∀ fuel cur acc,
    cur < chunkCount bytes.length → chunkCount bytes.length - cur ≤ fuel →
    runFrom (E := Empty) (fun k => Except.ok (fileSlice bytes k)) (chunkCount bytes.length)
        cur acc =
      ⟨(List.range (chunkCount bytes.length - cur)).map
          (fun i => some (jsRound ((cur + i + 1) * 40) (chunkCount bytes.length))),
        Except.ok (btoaJs (binaryOfBuffer (acc.flatten ++ bytes.drop (cur * chunkSize))))⟩ := by
  intro fuel
  induction fuel with
  | zero =>
    intro cur acc hcur hle
    omega
  | succ f ih =>
    intro cur acc hcur hle
    rw [runFrom]
    dsimp only
    by_cases h : cur + 1 < chunkCount bytes.length
    · rw [dif_pos h, ih (cur + 1) (acc ++ [fileSlice bytes cur]) h (by omega)]
      have hn : chunkCount bytes.length ≠ 0 := by omega
      have hrange : chunkCount bytes.length - cur = (chunkCount bytes.length - (cur + 1)) + 1 := by
        omega
      dsimp only
      simp only [ChunkRun.mk.injEq]
      constructor
      · rw [hrange, List.range_succ_eq_map, List.map_cons, List.map_map]
        simp only [List.cons.injEq]
        constructor
        · simp [reportVal, hn]
        · apply List.map_congr_left
          intro i _
          simp only [Function.comp_apply, Option.some.injEq]
          have harith : cur + 1 + i + 1 = cur + (i + 1) + 1 := by omega
          rw [harith]
      · have hflat : (acc ++ [fileSlice bytes cur]).flatten =
            acc.flatten ++ fileSlice bytes cur := by simp
        rw [hflat, List.append_assoc,
          fileSlice_append bytes cur (mul_chunkSize_le bytes.length cur h)]
    · rw [dif_neg h]
      have hn : chunkCount bytes.length ≠ 0 := by omega
      have hone : chunkCount bytes.length - cur = 1 := by omega
      simp only [ChunkRun.mk.injEq]
      constructor
      · rw [hone]
        simp [reportVal, hn, List.range_succ]
      · have hflat : (acc ++ [fileSlice bytes cur]).flatten =
            acc.flatten ++ fileSlice bytes cur := by simp
        rw [hflat,
          fileSlice_last bytes cur (le_mul_chunkSize bytes.length cur (by omega))]

theorem sextetOfChar_charOfSextet : ∀ s < 64, sextetOfChar (charOfSextet s) = some s := by
  decide

theorem charOfSextet_ne_pad : ∀ s < 64, charOfSextet s ≠ '=' := by
  decide

theorem charOfSextet_ne_comma : ∀ s < 64, charOfSextet s ≠ ',' := by
  decide

/-- Standard base64 decoding is a left inverse of the encoding, on byte
sequences. -/
theorem b64decode_b64encode : ∀ l : List Nat, (∀ b ∈ l, b < 256) →
    b64decode (b64encode l) = some l
  | [], _ => rfl
  | [b0], h => by
    have hb0 : b0 < 256 := h b0 (by simp)
    have e0 := sextetOfChar_charOfSextet (b0 / 4) (by omega)
    have e1 := sextetOfChar_charOfSextet (b0 % 4 * 16) (by omega)
    simp [b64encode, b64decode, e0, e1]
    omega
  | [b0, b1], h => by
    have hb0 : b0 < 256 := h b0 (by simp)
    have hb1 : b1 < 256 := h b1 (by simp)
    have e0 := sextetOfChar_charOfSextet (b0 / 4) (by omega)
    have e1 := sextetOfChar_charOfSextet (b0 % 4 * 16 + b1 / 16) (by omega)
    have e2 := sextetOfChar_charOfSextet (b1 % 16 * 4) (by omega)
    have ne2 := charOfSextet_ne_pad (b1 % 16 * 4) (by omega)
    simp [b64encode, b64decode, e0, e1, e2, ne2]
    omega
  | b0 :: b1 :: b2 :: rest, h => by
    have hb0 : b0 < 256 := h b0 (by simp)
    have hb1 : b1 < 256 := h b1 (by simp)
    have hb2 : b2 < 256 := h b2 (by simp)
    have e0 := sextetOfChar_charOfSextet (b0 / 4) (by omega)
    have e1 := sextetOfChar_charOfSextet (b0 % 4 * 16 + b1 / 16) (by omega)
    have e2 := sextetOfChar_charOfSextet (b1 % 16 * 4 + b2 / 64) (by omega)
    have e3 := sextetOfChar_charOfSextet (b2 % 64) (by omega)
    have ne2 := charOfSextet_ne_pad (b1 % 16 * 4 + b2 / 64) (by omega)
    have ne3 := charOfSextet_ne_pad (b2 % 64) (by omega)
    have ih := b64decode_b64encode rest (fun b hb => h b (by simp at hb ⊢; tauto))
    simp [b64encode, b64decode, e0, e1, e2, e3, ne2, ne3, ih]
    omega

theorem filterMap_id_map_some {α β : Type} (f : α → β) (l : List α) :
    (l.map (fun a => some (f a))).filterMap id = l.map f := by
  induction l with
  | nil => rfl
  | cons a t ih => simp [ih]

theorem readFileChunkedRun_reports (bytes : List Nat) (h : 0 < bytes.length) :
    (readFileChunkedRun bytes).reports =
      (List.range (chunkCount bytes.length)).map
        (fun i => some (jsRound ((i + 1) * 40) (chunkCount bytes.length))) := by
  have hn := chunkCount_pos bytes.length h
  have hrun := runFrom_slices bytes (chunkCount bytes.length) 0 [] hn (by omega)
  unfold readFileChunkedRun
  rw [hrun]
  simp

theorem readFileChunkedRun_outcome_eq (bytes : List Nat) :
    (readFileChunkedRun bytes).outcome = Except.ok (btoaJs (binaryOfBuffer bytes)) := by
  rcases Nat.eq_zero_or_pos bytes.length with hz | hp
  · have hb : bytes = [] := List.length_eq_zero.mp hz
    subst hb
    simp [readFileChunkedRun, runFrom, chunkCount, chunkSize, fileSlice]
  · have hn := chunkCount_pos bytes.length hp
    have hrun := runFrom_slices bytes (chunkCount bytes.length) 0 [] hn (by omega)
    unfold readFileChunkedRun
    rw [hrun]
    simp

/-- On the all-reads-succeed path, `readFileChunked` resolves with the
standard base64 encoding of the file's bytes. -/
theorem readFileChunkedRun_resolves (bytes : List Nat) (h : ∀ b ∈ bytes, b < 256) :
    (readFileChunkedRun bytes).outcome = Except.ok (some (b64encode bytes)) := by
  rw [readFileChunkedRun_outcome_eq, binaryOfBuffer_eq, btoaJs_map_ofNat bytes h]

/-- C3 (counterexample): for a 41 MiB file (41 chunks) the reported
progress values are NOT strictly increasing: chunks 20 and 21 both report
`round(20/41*40) = round(21/41*40) = 20`. -/
theorem claim3_counterexample :
    ¬ List.Chain' (fun a b => a < b)
      ((readFileChunkedRun (List.replicate 42991616 0)).reports.filterMap id) := by
  have hlen : (List.replicate 42991616 (0 : Nat)).length = 42991616 :=
    List.length_replicate 42991616 0
  have hn : chunkCount (List.replicate 42991616 (0 : Nat)).length = 41 := by
    rw [hlen]
    decide
  have hrep := readFileChunkedRun_reports (List.replicate 42991616 0) (by rw [hlen]; omega)
  rw [hrep, hn, filterMap_id_map_some,
    show (41 : Nat) = 40 + 1 from rfl, List.chain'_map, List.chain'_range_succ]
  intro hchain
  exact absurd (hchain 19 (by omega)) (by decide)

/-- C3 (amended): for every file with `0 < size`, the chunked reader
invokes the progress callback exactly `ceil(size / 1 MiB)` times, every
reported value is finite, the sequence is non-decreasing with last value
40, and it is strictly increasing whenever the file has at most 40 chunks
(for more chunks consecutive reports can repeat, and for an empty file the
callback fires once with a non-finite value). -/
theorem claim3_amended (bytes : List Nat) (h : 0 < bytes.length) :
    (readFileChunkedRun bytes).reports.length = chunkCount bytes.length ∧
    (∀ r ∈ (readFileChunkedRun bytes).reports, r.isSome = true) ∧
    List.Chain' (fun a b => a ≤ b) ((readFileChunkedRun bytes).reports.filterMap id) ∧
    ((readFileChunkedRun bytes).reports.filterMap id).getLast? = some 40 ∧
    (chunkCount bytes.length ≤ 40 →
      List.Chain' (fun a b => a < b) ((readFileChunkedRun bytes).reports.filterMap id)) := by
  have hn := chunkCount_pos bytes.length h
  have hrep := readFileChunkedRun_reports bytes h
  obtain ⟨m, hm⟩ : ∃ m, chunkCount bytes.length = m + 1 :=
    ⟨chunkCount bytes.length - 1, by omega⟩
  rw [hrep, hm, filterMap_id_map_some]
  refine ⟨by simp, by simp, ?_, ?_, ?_⟩
  · rw [List.chain'_map, List.chain'_range_succ]
    intro k _
    exact jsRound_mono (m + 1) ((k + 1) * 40) ((k + 1 + 1) * 40) (by omega)
  · rw [List.range_succ, List.map_append, List.map_cons, List.map_nil, List.getLast?_concat]
    rw [jsRound_full (m + 1) (by omega)]
  · intro h40
    rw [List.chain'_map, List.chain'_range_succ]
    intro k _
    have harith : (k + 1 + 1) * 40 = (k + 1) * 40 + 40 := by ring
    rw [harith]
    exact jsRound_step (m + 1) ((k + 1) * 40) (by omega) (by omega)

theorem claim3_witness :
    0 < ([3, 1, 4] : List Nat).length ∧
    ((readFileChunkedRun [3, 1, 4]).reports.length = chunkCount ([3, 1, 4] : List Nat).length ∧
    (∀ r ∈ (readFileChunkedRun [3, 1, 4]).reports, r.isSome = true) ∧
    List.Chain' (fun a b => a ≤ b) ((readFileChunkedRun [3, 1, 4]).reports.filterMap id) ∧
    ((readFileChunkedRun [3, 1, 4]).reports.filterMap id).getLast? = some 40 ∧
    (chunkCount ([3, 1, 4] : List Nat).length ≤ 40 →
      List.Chain' (fun a b => a < b) ((readFileChunkedRun [3, 1, 4]).reports.filterMap id))) :=
  ⟨by decide, claim3_amended [3, 1, 4] (by decide)⟩

/-- C4: for every file content, the chunked reader resolves with the
standard base64 encoding of the file bytes, and base64-decoding that
string reproduces exactly the original byte sequence. -/
theorem claim4_roundtrip (bytes : List Nat) (h : ∀ b ∈ bytes, b < 256) :
    (readFileChunkedRun bytes).outcome = Except.ok (some (b64encode bytes)) ∧
    b64decode (b64encode bytes) = some bytes :=
  ⟨readFileChunkedRun_resolves bytes h, b64decode_b64encode bytes h⟩

theorem claim4_witness :
    (∀ b ∈ ([0, 255, 77, 1, 128] : List Nat), b < 256) ∧
    ((readFileChunkedRun [0, 255, 77, 1, 128]).outcome =
      Except.ok (some (b64encode [0, 255, 77, 1, 128])) ∧
    b64decode (b64encode [0, 255, 77, 1, 128]) = some [0, 255, 77, 1, 128]) :=
  ⟨by decide, claim4_roundtrip [0, 255, 77, 1, 128] (by decide)⟩

/-- If the read of chunk `k` fails (all earlier ones succeeding), the loop
rejects with that error, whatever happens at later indices. -/
theorem runFrom_error {E : Type} (reads : Nat → Except E (List Nat)) (n k : Nat) (e : E)
    (herr : reads k = Except.error e)
    (hok : ∀ j, j < k → ∃ c, reads j = Except.ok c)
    (hk : k < n ∨ k = 0) :
    ∀ fuel cur acc, cur ≤ k → k - cur ≤ fuel →
      (runFrom reads n cur acc).outcome = Except.error e := by
  intro fuel
  induction fuel with
  | zero =>
    intro cur acc hcur hle
    have hck : cur = k := by omega
    subst hck
    rw [runFrom, herr]
  | succ f ih =>
    intro cur acc hcur hle
    by_cases hck : cur = k
    · subst hck
      rw [runFrom, herr]
    · have hlt : cur < k := by omega
      obtain ⟨c, hc⟩ := hok cur hlt
      rw [runFrom, hc]
      dsimp only
      have hn : cur + 1 < n := by
        rcases hk with h1 | h2
        · omega
        · omega
      rw [dif_pos hn]
      exact ih (cur + 1) (acc ++ [c]) (by omega) (by omega)

/-- C9: if any chunk read fails (chunk `k`, earlier reads succeeding), the
whole operation rejects with exactly that read error: the promise never
resolves, so no base64 string and no partial result is ever returned. -/
theorem claim9_read_error {E : Type} (reads : Nat → Except E (List Nat)) (n k : Nat) (e : E)
    (hk : k < n ∨ k = 0)
    (hok : ∀ j, j < k → ∃ c, reads j = Except.ok c)
    (herr : reads k = Except.error e) :
    (runFrom reads n 0 []).outcome = Except.error e ∧
    ∀ s, (runFrom reads n 0 []).outcome ≠ Except.ok s := by
  have hmain := runFrom_error reads n k e herr hok hk k 0 [] (by omega) (by omega)
  exact ⟨hmain, fun s hs => by rw [hmain] at hs; cases hs⟩

theorem claim9_witness :
    ((runFrom (E := String)
        (fun j => if j = 2 then Except.error "read aborted" else Except.ok [7]) 5 0 []).outcome =
      Except.error "read aborted") ∧
    ∀ s, (runFrom (E := String)
        (fun j => if j = 2 then Except.error "read aborted" else Except.ok [7]) 5 0 []).outcome ≠
      Except.ok s :=
  claim9_read_error _ 5 2 "read aborted" (Or.inl (by omega))
    (fun j hj => ⟨[7], by simp; omega⟩) (by simp)

theorem splitComma_no_comma : ∀ l : JsStr, (∀ c ∈ l, c ≠ ',') → splitComma l = [l]
  | [], _ => rfl
  | c :: rest, h => by
    rw [splitComma, if_neg (h c (by simp)),
      splitComma_no_comma rest (fun x hx => h x (by simp [hx]))]

theorem splitComma_append : ∀ xs ys : JsStr, (∀ c ∈ xs, c ≠ ',') →
    splitComma (xs ++ ',' :: ys) = xs :: splitComma ys
  | [], ys, _ => by
    rw [List.nil_append, splitComma, if_pos rfl]
  | x :: xs, ys, h => by
    rw [List.cons_append, splitComma, if_neg (h x (by simp)),
      splitComma_append xs ys (fun c hc => h c (by simp [hc]))]

theorem b64encode_ne_comma : ∀ l : List Nat, (∀ b ∈ l, b < 256) →
    ∀ c ∈ b64encode l, c ≠ ','
  | [], _, c, hc => by simp [b64encode] at hc
  | [b0], h, c, hc => by
    have hb0 : b0 < 256 := h b0 (by simp)
    simp [b64encode] at hc
    rcases hc with rfl | rfl | rfl
    · exact charOfSextet_ne_comma _ (by omega)
    · exact charOfSextet_ne_comma _ (by omega)
    · decide
  | [b0, b1], h, c, hc => by
    have hb0 : b0 < 256 := h b0 (by simp)
    have hb1 : b1 < 256 := h b1 (by simp)
    simp [b64encode] at hc
    rcases hc with rfl | rfl | rfl | rfl
    · exact charOfSextet_ne_comma _ (by omega)
    · exact charOfSextet_ne_comma _ (by omega)
    · exact charOfSextet_ne_comma _ (by omega)
    · decide
  | b0 :: b1 :: b2 :: rest, h, c, hc => by
    have hb0 : b0 < 256 := h b0 (by simp)
    have hb1 : b1 < 256 := h b1 (by simp)
    have hb2 : b2 < 256 := h b2 (by simp)
    rw [b64encode] at hc
    simp only [List.mem_cons] at hc
    rcases hc with rfl | rfl | rfl | rfl | hmem
    · exact charOfSextet_ne_comma _ (by omega)
    · exact charOfSextet_ne_comma _ (by omega)
    · exact charOfSextet_ne_comma _ (by omega)
    · exact charOfSextet_ne_comma _ (by omega)
    · exact b64encode_ne_comma rest (fun b hb => h b (by simp [hb])) c hmem

theorem dataUrlOf_split (mime : JsStr) (bytes : List Nat)
    (hm : ∀ c ∈ mime, c ≠ ',') (hb : ∀ b ∈ bytes, b < 256) :
    splitComma (dataUrlOf mime bytes) =
      ["data:".toList ++ mime ++ ";base64".toList, b64encode bytes] := by
  have h1 : (";base64,".toList : JsStr) = ";base64".toList ++ [','] := by decide
  have hre : dataUrlOf mime bytes =
      ("data:".toList ++ mime ++ ";base64".toList) ++ ',' :: b64encode bytes := by
    unfold dataUrlOf
    rw [h1]
    simp [List.append_assoc]
  have hhead : ∀ c ∈ "data:".toList ++ mime ++ ";base64".toList, c ≠ ',' := by
    intro c hc
    simp only [List.mem_append] at hc
    have hd : ∀ x ∈ ("data:".toList : JsStr), x ≠ ',' := by decide
    have he : ∀ x ∈ (";base64".toList : JsStr), x ≠ ',' := by decide
    rcases hc with (hc | hc) | hc
    · exact hd c hc
    · exact hm c hc
    · exact he c hc
  rw [hre, splitComma_append _ _ hhead, splitComma_no_comma _ (b64encode_ne_comma bytes hb)]

/-- C10: for every file, the chunked reader and the single-shot data-URL
reader resolve to the same base64 string (the standard base64 encoding of
the file bytes, for any comma-free MIME type), so the 2 MiB size-based
dispatch in `processFile` never changes the payload sent onward. -/
theorem claim10_equivalence (mime : JsStr) (bytes : List Nat)
    (hb : ∀ b ∈ bytes, b < 256) (hm : ∀ c ∈ mime, c ≠ ',') :
    fileToBase64 mime bytes = some (b64encode bytes) ∧
    (readFileChunkedRun bytes).outcome = Except.ok (some (b64encode bytes)) ∧
    processFileB64 mime bytes = some (b64encode bytes) := by
  have hfile : fileToBase64 mime bytes = some (b64encode bytes) := by
    unfold fileToBase64
    rw [dataUrlOf_split mime bytes hm hb]
    rfl
  have hchunk := readFileChunkedRun_resolves bytes hb
  refine ⟨hfile, hchunk, ?_⟩
  unfold processFileB64
  by_cases hsz : bytes.length > CHUNK_THRESHOLD
  · rw [if_pos hsz]
    unfold chunkedResolved
    rw [hchunk]
    rfl
  · rw [if_neg hsz]
    exact hfile

theorem claim10_witness :
    (∀ b ∈ ([9, 200, 0] : List Nat), b < 256) ∧
    (∀ c ∈ ("application/pdf".toList : JsStr), c ≠ ',') ∧
    (fileToBase64 ("application/pdf".toList) [9, 200, 0] = some (b64encode [9, 200, 0]) ∧
    (readFileChunkedRun [9, 200, 0]).outcome = Except.ok (some (b64encode [9, 200, 0])) ∧
    processFileB64 ("application/pdf".toList) [9, 200, 0] = some (b64encode [9, 200, 0])) :=
  ⟨by decide, by decide, claim10_equivalence ("application/pdf".toList) [9, 200, 0]
    (by decide) (by decide)⟩

end Hedra
